import Mathlib

/-!
# Verification of the envoluntary environment loader

Shallow embedding of the core data model and algorithms of the `envoluntary`
repository (crates `env-hooks`, `nix-dev-env`, `cli`), together with proofs of
the specified properties.

Conventions:
* Rust `IndexMap<String, V>` (insertion ordered, unique keys) is embedded as an
  association list `List (String × V)`; `indexGet`, `indexInsert`,
  `indexShiftRemove` mirror `get`, `insert` and `shift_remove`.
* Rust `String` values are embedded as Lean `String` (or `List Char` where
  character-level reasoning is needed); machine I/O collaborators (the `nix`
  and `bash` child processes, `serde_json`, `ruzstd`) appear as explicit
  function parameters with their documented contracts as hypotheses.
-/

namespace Envoluntary

/-- Association-list embedding of `IndexMap<String, V>`: insertion-ordered map
with unique keys. -/
abbrev IndexList (α : Type) : Type := List (String × α)

/-- Embedding of `EnvVars` (`IndexMap<String, String>` from
`env-hooks/src/lib.rs`). -/
abbrev EnvVars : Type := IndexList String

/-- Embedding of `EnvVarsState` (`IndexMap<String, Option<String>>` from
`env-hooks/src/lib.rs`); `none` is the "absent / unset on apply" marker. -/
abbrev EnvVarsState : Type := IndexList (Option String)

/-- `IndexMap::get`: value of the first entry with the given key. -/
def indexGet {α : Type} : IndexList α → String → Option α
  | [], _ => none
  | p :: m, k => if p.1 = k then some p.2 else indexGet m k

/-- `IndexMap::insert`: replace the value in place when the key is present
(keeping its position), otherwise append the new entry at the end. -/
def indexInsert {α : Type} : IndexList α → String → α → IndexList α
  | [], k, v => [(k, v)]
  | p :: m, k, v => if p.1 = k then (k, v) :: m else p :: indexInsert m k v

/-- `IndexMap::shift_remove`: remove the entry with the given key, shifting the
following entries down. -/
def indexShiftRemove {α : Type} : IndexList α → String → IndexList α
  | [], _ => []
  | p :: m, k => if p.1 = k then m else p :: indexShiftRemove m k

/-- `IndexMap::shift_remove` returning the removed value as well (the Rust call
returns `Option<V>` and mutates the map). -/
def indexShiftRemoveGet {α : Type} : IndexList α → String → Option α × IndexList α
  | [], _ => (none, [])
  | p :: m, k =>
    if p.1 = k then (some p.2, m)
    else
      let r := indexShiftRemoveGet m k
      (r.1, p :: r.2)

/-- `IndexMap::contains_key`. -/
def indexContains {α : Type} (m : IndexList α) (k : String) : Bool :=
  (indexGet m k).isSome

/-- Key list of an index map, in insertion order. -/
def indexKeys {α : Type} (m : IndexList α) : List String :=
  m.map (fun p => p.1)

/-- Update in place through `IndexMap::get_mut`: rewrite the value stored at a
key, keeping the entry's position; a missing key leaves the map unchanged. -/
def indexSetValue {α : Type} : IndexList α → String → α → IndexList α
  | [], _, _ => []
  | p :: m, k, v => if p.1 = k then (k, v) :: m else p :: indexSetValue m k v

/-! ## Env-diff engine (`env-hooks/src/lib.rs`) -/

/-- One step of `Iterator::collect::<IndexSet<_>>`: insert an element unless it
is already present. -/
def indexSetInsert (acc : List (List Char)) (x : List Char) : List (List Char) :=
  if x ∈ acc then acc else acc ++ [x]

/-- `Iterator::collect::<IndexSet<_>>` over a sequence of string slices:
insertion-ordered set keeping the first occurrence of each element. -/
def indexSetCollect (l : List (List Char)) : List (List Char) :=
  l.foldl indexSetInsert []

/-- Specification-side deduplication: keep the first occurrence of each
element, preserving order. -/
def dedupFirst : List (List Char) → List (List Char)
  | [] => []
  | a :: l => a :: dedupFirst (l.filter (· ≠ a))
termination_by l => l.length
decreasing_by
  simp only [List.length_cons]
  exact Nat.lt_succ_of_le (List.length_filter_le _ _)

/-- `merge_delimited_values` from `env-hooks/src/lib.rs`: split the new and the
old value on the split delimiter, chain new before old, collect into an
`IndexSet` (first occurrence kept) and join with the join delimiter. -/
def merge_delimited_values (split_delimiter join_delimiter : Char)
    (old_value new_value : String) : String :=
  String.mk (List.intercalate [join_delimiter]
    (indexSetCollect
      (new_value.data.splitOn split_delimiter ++ old_value.data.splitOn split_delimiter)))

/-- `merge_delimited_env_var` from `env-hooks/src/lib.rs`: when the variable is
present in both the old and the new map, rewrite the new map's value in place
with the merged value; otherwise leave the new map unchanged. -/
def merge_delimited_env_var (env_var : String) (split_delimiter join_delimiter : Char)
    (old_env_vars : EnvVars) (new_env_vars : EnvVars) : EnvVars :=
  match indexGet old_env_vars env_var, indexGet new_env_vars env_var with
  | some old_value, some new_value =>
    indexSetValue new_env_vars env_var
      (merge_delimited_values split_delimiter join_delimiter old_value new_value)
  | _, _ => new_env_vars

/-- `get_old_env_vars_to_be_updated` from `env-hooks/src/lib.rs`: keep the old
entries whose key is also in the new map with a different value. -/
def get_old_env_vars_to_be_updated (old_env_vars : EnvVars) (new_env_vars : EnvVars) :
    EnvVars :=
  old_env_vars.foldl
    (fun acc p =>
      if indexContains new_env_vars p.1 ∧ indexGet new_env_vars p.1 ≠ some p.2 then
        indexInsert acc p.1 p.2
      else acc)
    []

/-- `get_env_vars_reset` from `env-hooks/src/lib.rs`. The second argument is
the `HashSet<String>` of new keys, embedded as a duplicate-free list in an
arbitrary iteration order. For each new key the corresponding old value is
removed from the old map and recorded (or `none` when missing); finally the
state-variable key is inserted mapping to `none`. -/
def get_env_vars_reset (old_env_vars_that_were_updated : EnvVars)
    (new_env_vars : List String) (env_state_var_key : String) : EnvVarsState :=
  let folded :=
    new_env_vars.foldl
      (fun (acc : EnvVarsState × EnvVars) key =>
        let r := indexShiftRemoveGet acc.2 key
        (indexInsert acc.1 key r.1, r.2))
      ([], old_env_vars_that_were_updated)
  indexInsert folded.1 env_state_var_key none

/-- `IGNORED_ENV_VAR_PREFIXES` and `IGNORED_ENV_VAR_KEYS` membership test,
`ignored_env_var_key` from `env-hooks/src/lib.rs`. -/
def ignored_env_var_key (env_var_key : String) : Bool :=
  env_var_key.startsWith "__fish" || env_var_key.startsWith "BASH_FUNC_" ||
    ["DIRENV_CONFIG", "DIRENV_BASH", "DIRENV_IN_ENVRC", "COMP_WORDBREAKS", "PS1",
      "OLDPWD", "PWD", "SHELL", "SHELLOPTS", "SHLVL", "_"].contains env_var_key

/-- `remove_ignored_env_vars` from `env-hooks/src/lib.rs`: drop every entry
whose key is ignored (the source iterates the keys and `shift_remove`s the
ignored ones, which on a unique-key map is a filter). -/
def remove_ignored_env_vars (env_vars : EnvVars) : EnvVars :=
  env_vars.filter (fun p => !(ignored_env_var_key p.1))

/-! ## Freshness detection (`nix-dev-env/src/nix_profile_cache.rs`) -/

/-- Abstract filesystem view used by `NixProfileCache::needs_update`: whether a
path names a regular file, and its modification time (`none` when the metadata
call fails, e.g. the file is missing). Times are seconds since the Unix epoch,
which itself is `0`. -/
structure FileSystem where
  isFile : String → Bool
  mtime : String → Option Nat

/-- `NixProfileCache::needs_update`: `true` unless both the `.rc` file and the
profile symlink exist, in which case it is whether some watched file's
modification time (the Unix epoch when unreadable) exceeds the `.rc` file's.
The result is `none` when the `.rc` metadata read fails (`?` in the source). -/
def needs_update (fs : FileSystem) (profile_rc_file profile_symlink : String)
    (files_to_watch : List String) : Option Bool :=
  if fs.isFile profile_rc_file && fs.isFile profile_symlink then
    (fs.mtime profile_rc_file).map
      (fun profile_rc_mtime =>
        files_to_watch.any (fun file => decide (profile_rc_mtime < (fs.mtime file).getD 0)))
  else
    some true

/-! ## Nix invocations (`nix-dev-env/src/nix_command.rs`, `nix_profile_cache.rs`) -/

/-- Argument list built by `nix_program` in `nix-dev-env/src/nix_command.rs`:
the experimental-features flags are prepended to the caller's arguments. -/
def nix_program_args (args : List String) : List String :=
  ["--extra-experimental-features", "nix-command flakes"] ++ args

/-- Temporary profile path used by `NixProfileCache::update`:
`<cache_dir>/flake-tmp-profile.<pid>`. -/
def tmp_profile_path (cache_dir : String) (pid : Nat) : String :=
  cache_dir ++ "/flake-tmp-profile." ++ toString pid

/-- Full argument list of the `nix print-dev-env` invocation performed by
`NixProfileCache::update` in `nix-dev-env/src/nix_profile_cache.rs` (the
source passes exactly `print-dev-env --profile <tmp_profile> <flake_ref>`
through `nix_command::nix`). -/
def update_print_dev_env_args (cache_dir : String) (pid : Nat)
    (flake_reference_string : String) : List String :=
  nix_program_args
    ["print-dev-env", "--profile", tmp_profile_path cache_dir pid, flake_reference_string]

/-- Modelled from the spec: the `nix print-dev-env` argument list that §4.3 of
the specification (and the repository's own integration test
`nix-dev-env/tests/profile_caching.rs`) prescribe for `update`, including
`--no-write-lock-file` and, in impure evaluation mode, `--impure`. -/
def spec_update_print_dev_env_args (impure : Bool) (cache_dir : String) (pid : Nat)
    (flake_reference_string : String) : List String :=
  ["--extra-experimental-features", "nix-command flakes", "print-dev-env"] ++
    (if impure then ["--impure"] else []) ++
    ["--no-write-lock-file", "--profile", tmp_profile_path cache_dir pid,
      flake_reference_string]

/-! ## Base64 (standard alphabet with padding, the `BASE64_STANDARD` engine) -/

/-- Standard base64 alphabet. -/
def b64_alphabet : List Char :=
  "ABCDEFGHIJKLMNOPQRSTUVWXYZabcdefghijklmnopqrstuvwxyz0123456789+/".data

/-- Character of a six-bit group. -/
def b64_char (n : Nat) : Char := b64_alphabet.getD n 'A'

/-- Six-bit value of an alphabet character; `none` for characters outside the
alphabet (including `=`). -/
def b64_decode_char (c : Char) : Option Nat := b64_alphabet.findIdx? (· == c)

/-- Base64 encoding with padding of a byte sequence, as performed by
`BASE64_STANDARD.encode`. -/
def b64_encode : List Nat → List Char
  | [] => []
  | [b0] => [b64_char (b0 / 4), b64_char (b0 % 4 * 16), '=', '=']
  | [b0, b1] =>
    [b64_char (b0 / 4), b64_char (b0 % 4 * 16 + b1 / 16), b64_char (b1 % 16 * 4), '=']
  | b0 :: b1 :: b2 :: rest =>
    b64_char (b0 / 4) :: b64_char (b0 % 4 * 16 + b1 / 16) ::
      b64_char (b1 % 16 * 4 + b2 / 64) :: b64_char (b2 % 64) :: b64_encode rest

/-- Base64 decoding as performed by `BASE64_STANDARD.decode`: the input length
must be a multiple of four, `=` may appear only as canonical final padding,
non-alphabet characters and non-zero trailing bits are rejected. -/
def b64_decode : List Char → Option (List Nat)
  | [] => some []
  | c0 :: c1 :: c2 :: c3 :: rest =>
    match b64_decode_char c0, b64_decode_char c1 with
    | some s0, some s1 =>
      if c2 = '=' then
        if c3 = '=' ∧ rest = [] ∧ s1 % 16 = 0 then some [s0 * 4 + s1 / 16] else none
      else
        match b64_decode_char c2 with
        | some s2 =>
          if c3 = '=' then
            if rest = [] ∧ s2 % 4 = 0 then some [s0 * 4 + s1 / 16, s1 % 16 * 16 + s2 / 4]
            else none
          else
            match b64_decode_char c3 with
            | some s3 =>
              (b64_decode rest).map
                (fun bs =>
                  (s0 * 4 + s1 / 16) :: (s1 % 16 * 16 + s2 / 4) :: (s2 % 4 * 64 + s3) :: bs)
            | none => none
        | none => none
    | _, _ => none
  | _ => none

/-! ## Env-state blob (`cli/src/shell.rs`, `EnvoluntaryEnvState`) -/

/-- The persisted env-state record from `cli/src/shell.rs`: an ordered list of
flake references and the reset `EnvVarsState`. -/
structure EnvoluntaryEnvState where
  flake_references : List String
  env_vars_reset : EnvVarsState
deriving DecidableEq

/-- `EnvoluntaryEnvState::encode`: JSON-serialise (through `serde_json::to_vec`,
passed in as `json_to_vec`), zstd-compress (through
`ruzstd::encoding::compress_to_vec`, passed in as `zstd_compress`), then
base64-encode. -/
def EnvoluntaryEnvState.encode (json_to_vec : EnvoluntaryEnvState → List Nat)
    (zstd_compress : List Nat → List Nat) (s : EnvoluntaryEnvState) : List Char :=
  b64_encode (zstd_compress (json_to_vec s))

/-- `EnvoluntaryEnvState::decode`: base64-decode, zstd-decompress (through
`ruzstd::decoding::StreamingDecoder`, passed in as `zstd_decompress`), then
JSON-parse (through `serde_json::from_slice`, passed in as `json_from_slice`);
each stage propagates failure. -/
def EnvoluntaryEnvState.decode (json_from_slice : List Nat → Option EnvoluntaryEnvState)
    (zstd_decompress : List Nat → Option (List Nat)) (base64_value : List Char) :
    Option EnvoluntaryEnvState :=
  (b64_decode base64_value).bind fun zstd_value =>
    (zstd_decompress zstd_value).bind fun value => json_from_slice value

/-! ## Prompt-hook state machine (`env-hooks/src/state.rs` driven by
`print_export` in `cli/src/shell.rs`) -/

/-- A configuration entry as consumed by `print_export` (`cli/src/config.rs`
`Config`). -/
structure Config where
  flake_reference : String
  impure : Option Bool

/-- Terminal result of one `export` run: `done` for a successful terminal
state, `failed` when a decode or build error aborts the invocation. -/
inductive ExportOutcome where
  | done : ExportOutcome
  | failed : ExportOutcome
deriving DecidableEq

/-- The `print_export` decision tree from `cli/src/shell.rs` over the typestate
chain of `env-hooks/src/state.rs`. `decode` is `EnvoluntaryEnvState::decode`
applied to the state variable's value; `build_env_vars_state` is the fold that
acquires each config's profile and harvests its exports (a child-process
collaborator, abstracted). The result collects the `print_shell_export`
emissions in order, together with the terminal outcome. -/
def print_export (decode : String → Option EnvoluntaryEnvState)
    (build_env_vars_state : List Config → Option EnvVarsState)
    (rcs : List Config) (env_state_var : Option String) :
    List EnvVarsState × ExportOutcome :=
  match rcs, env_state_var with
  | [], none => ([], .done)
  | [], some v =>
    match decode v with
    | none => ([], .failed)
    | some env_state => ([env_state.env_vars_reset], .done)
  | c :: cs, none =>
    match build_env_vars_state (c :: cs) with
    | none => ([], .failed)
    | some env_vars_state => ([env_vars_state], .done)
  | c :: cs, some v =>
    match decode v with
    | none => ([], .failed)
    | some env_state =>
      if (c :: cs).map (fun config => config.flake_reference) = env_state.flake_references
      then ([], .done)
      else
        match build_env_vars_state (c :: cs) with
        | none => ([env_state.env_vars_reset], .failed)
        | some env_vars_state => ([env_state.env_vars_reset, env_vars_state], .done)

/-- Entries of the emitted script, in print order: the concatenation of the
emitted `EnvVarsState` blocks (each `print_shell_export` call renders one line
per entry, in entry order). -/
def emitted_lines (emissions : List EnvVarsState) : List (String × Option String) :=
  emissions.flatten

/-! ## Flake-input GC roots (`nix-dev-env/src/nix_profile_cache.rs`) -/

/-- Serde JSON value, restricted to the shapes `get_paths_from_doc` inspects:
strings, objects, and anything else. -/
inductive JsonValue where
  | str : List Char → JsonValue
  | obj : List (String × JsonValue) → JsonValue
  | other : JsonValue

/-- `serde_json::Value::get` on an object key. -/
def json_get : JsonValue → String → Option JsonValue
  | .obj fields, key => (fields.find? (fun p => p.1 == key)).map (fun p => p.2)
  | _, _ => none

/-- `serde_json::Value::as_str`. -/
def json_as_str : JsonValue → Option (List Char)
  | .str s => some s
  | _ => none

/-- Tail computation inside `get_path`: drop the first eleven characters (the
length of `/nix/store/`) when the path is longer than that, else keep it. -/
def strip_store_path (path : List Char) : List Char :=
  if 11 < path.length then path.drop 11 else path

/-- `get_path` from `nix-dev-env/src/nix_profile_cache.rs`. -/
def get_path (doc : JsonValue) : Option (List Char) :=
  ((json_get doc "path").bind json_as_str).map strip_store_path

/-- The raw `path` field of a document, before prefix stripping. -/
def get_raw_path (doc : JsonValue) : Option (List Char) :=
  (json_get doc "path").bind json_as_str

mutual

/-- `get_paths_from_doc` from `nix-dev-env/src/nix_profile_cache.rs`: pre-order
collection of the (stripped) `path` fields of the document and of every value
of its `inputs` object. -/
def get_paths_from_doc (doc : JsonValue) : List (List Char) :=
  (get_path doc).toList ++
    (match h : json_get doc "inputs" with
     | some (JsonValue.obj inputs) => get_paths_from_inputs inputs
     | _ => [])
termination_by sizeOf doc
decreasing_by
  cases doc with
  | str s => simp [json_get] at h
  | other => simp [json_get] at h
  | obj fields =>
    simp only [json_get, Option.map_eq_some'] at h
    obtain ⟨p, hfind, hp2⟩ := h
    have hpmem := List.mem_of_find?_eq_some hfind
    have h1 : sizeOf p < sizeOf fields := List.sizeOf_lt_of_mem hpmem
    rcases p with ⟨pk, pv⟩
    simp only at hp2
    subst hp2
    simp only [Prod.mk.sizeOf_spec, JsonValue.obj.sizeOf_spec] at *
    omega

/-- Loop body of `get_paths_from_doc` over the values of the `inputs` object. -/
def get_paths_from_inputs : List (String × JsonValue) → List (List Char)
  | [] => []
  | kv :: rest => get_paths_from_doc kv.2 ++ get_paths_from_inputs rest
termination_by l => sizeOf l
decreasing_by
  · rcases kv with ⟨k1, v1⟩
    simp only [Prod.mk.sizeOf_spec, List.cons.sizeOf_spec] at *
    omega
  · simp only [List.cons.sizeOf_spec]
    omega

end

mutual

/-- Pre-order collection of the raw `path` fields (no prefix stripping); the
quantification domain of the claim about GC-root symlink names. -/
def raw_paths_from_doc (doc : JsonValue) : List (List Char) :=
  (get_raw_path doc).toList ++
    (match h : json_get doc "inputs" with
     | some (JsonValue.obj inputs) => raw_paths_from_inputs inputs
     | _ => [])
termination_by sizeOf doc
decreasing_by
  cases doc with
  | str s => simp [json_get] at h
  | other => simp [json_get] at h
  | obj fields =>
    simp only [json_get, Option.map_eq_some'] at h
    obtain ⟨p, hfind, hp2⟩ := h
    have hpmem := List.mem_of_find?_eq_some hfind
    have h1 : sizeOf p < sizeOf fields := List.sizeOf_lt_of_mem hpmem
    rcases p with ⟨pk, pv⟩
    simp only at hp2
    subst hp2
    simp only [Prod.mk.sizeOf_spec, JsonValue.obj.sizeOf_spec] at *
    omega

/-- Loop body of `raw_paths_from_doc` over the values of the `inputs` object. -/
def raw_paths_from_inputs : List (String × JsonValue) → List (List Char)
  | [] => []
  | kv :: rest => raw_paths_from_doc kv.2 ++ raw_paths_from_inputs rest
termination_by l => sizeOf l
decreasing_by
  · rcases kv with ⟨k1, v1⟩
    simp only [Prod.mk.sizeOf_spec, List.cons.sizeOf_spec] at *
    omega
  · simp only [List.cons.sizeOf_spec]
    omega

end

/-- GC-root symlink location built by `NixProfileCache::update` for one input
name: `flake_inputs_dir.join(input)`. -/
def flake_input_symlink_path (flake_inputs_dir : List Char) (input : List Char) :
    List Char :=
  flake_inputs_dir ++ '/' :: input

/-! ## Export pipeline (`cli/src/shell.rs`) -/

/-- Key of the persisted state variable. -/
def ENVOLUNTARY_ENV_STATE_VAR_KEY : String := "ENVOLUNTARY_ENV_STATE"

/-- The `PATH` key. -/
def ENV_VAR_KEY_PATH : String := "PATH"

/-- The `XDG_DATA_DIRS` key. -/
def ENV_VAR_KEY_XDG_DATA_DIRS : String := "XDG_DATA_DIRS"

/-- Promotion `From<EnvVars> for EnvVarsState` from `env-hooks/src/lib.rs`:
every entry becomes present. -/
def env_vars_state_from_env_vars (env_vars : EnvVars) : EnvVarsState :=
  env_vars.map (fun p => (p.1, some p.2))

/-- `get_new_env_vars` from `cli/src/shell.rs`. `process_env` is the calling
process's environment; `harvested_env_vars` is the result of
`get_env_vars_from_bash` on the profile `.rc` (a child-process collaborator,
abstracted as an input). Returns the new environment map together with the
old entries about to be updated. -/
def get_new_env_vars (process_env : EnvVars) (harvested_env_vars : EnvVars) :
    EnvVars × EnvVars :=
  let old_path := indexGet process_env ENV_VAR_KEY_PATH
  let new1 := remove_ignored_env_vars harvested_env_vars
  let new2 :=
    if indexGet new1 ENV_VAR_KEY_PATH = old_path then indexShiftRemove new1 ENV_VAR_KEY_PATH
    else new1
  let old_env_vars_to_be_updated :=
    get_old_env_vars_to_be_updated (remove_ignored_env_vars process_env) new2
  let new3 :=
    if indexContains new2 ENV_VAR_KEY_PATH then
      merge_delimited_env_var ENV_VAR_KEY_PATH ':' ':' old_env_vars_to_be_updated new2
    else new2
  let new4 :=
    if indexContains new3 ENV_VAR_KEY_XDG_DATA_DIRS then
      merge_delimited_env_var ENV_VAR_KEY_XDG_DATA_DIRS ':' ':' old_env_vars_to_be_updated new3
    else new3
  (new4, old_env_vars_to_be_updated)

/-- `get_export_env_vars_state` from `cli/src/shell.rs`: build the new
environment and the old-values delta, derive the reset state, embed it in an
`EnvoluntaryEnvState` (its encoding abstracted as `encode_state`), append the
encoded blob under the state key, and promote to an `EnvVarsState`. -/
def get_export_env_vars_state (encode_state : EnvoluntaryEnvState → String)
    (process_env harvested_env_vars : EnvVars) (flake_reference : String) : EnvVarsState :=
  let u := get_new_env_vars process_env harvested_env_vars
  let env_vars_reset := get_env_vars_reset u.2 (indexKeys u.1) ENVOLUNTARY_ENV_STATE_VAR_KEY
  let env_state : EnvoluntaryEnvState :=
    { flake_references := [flake_reference], env_vars_reset := env_vars_reset }
  env_vars_state_from_env_vars
    (indexInsert u.1 ENVOLUNTARY_ENV_STATE_VAR_KEY (encode_state env_state))

/-! ## Shell hooks (`cli/src/shell.rs`, `env-hooks/src/shells`) -/

/-- The four values of `EnvoluntaryShell` from `cli/src/opt.rs`. -/
inductive EnvoluntaryShell where
  | bash : EnvoluntaryShell
  | fish : EnvoluntaryShell
  | json : EnvoluntaryShell
  | zsh : EnvoluntaryShell

/-- `bstr` `replace`: substitute every (non-overlapping, leftmost-first)
occurrence of `needle` by `repl`. -/
def replace_all (needle repl : List Char) : List Char → List Char
  | [] => []
  | c :: rest =>
    if !needle.isEmpty && needle.isPrefixOf (c :: rest) then
      repl ++ replace_all needle repl ((c :: rest).drop needle.length)
    else
      c :: replace_all needle repl rest
termination_by l => l.length
decreasing_by
  · rename_i hcond
    simp only [Bool.and_eq_true, Bool.not_eq_true', List.isEmpty_eq_false_iff_exists_mem] at hcond
    cases needle with
    | nil => simp at hcond
    | cons n ns =>
      simp only [List.drop_succ_cons, List.length_cons, List.length_drop]
      omega
  · simp only [List.length_cons]
    omega

/-- Modelled from the spec: `crate::constants::CLI_NAME` (the `constants`
module is not among the sources); the specification's config-path layout
`$XDG_CONFIG_HOME/envoluntary/config.toml` and the state variable
`ENVOLUNTARY_ENV_STATE` fix the CLI name as `envoluntary`. -/
def CLI_NAME : String := "envoluntary"

/-- `BASH_HOOK` template from `env-hooks/src/shells/bash.rs`. -/
def BASH_HOOK : String := "
    _\x7b\x7b.HookPrefix\x7d\x7d_hook() \x7b
        local previous_exit_status=$?;
        vars=\"$(\x7b\x7b.ExportCommand\x7d\x7d)\";
        trap -- '' SIGINT;
        eval \"$vars\";
        trap - SIGINT;
        return $previous_exit_status;
    \x7d;
    if [[ \";$\x7bPROMPT_COMMAND[*]:-\x7d;\" != *\";_\x7b\x7b.HookPrefix\x7d\x7d_hook;\"* ]]; then
        if [[ \"$(declare -p PROMPT_COMMAND 2>&1)\" == \"declare -a\"* ]]; then
            PROMPT_COMMAND=(_\x7b\x7b.HookPrefix\x7d\x7d_hook \"$\x7bPROMPT_COMMAND[@]\x7d\")
        else
            PROMPT_COMMAND=\"_\x7b\x7b.HookPrefix\x7d\x7d_hook$\x7bPROMPT_COMMAND:+;$PROMPT_COMMAND\x7d\"
        fi
    fi
"

/-- `FISH_HOOK` template from `env-hooks/src/shells/fish.rs`. -/
def FISH_HOOK : String := "
    function __\x7b\x7b.HookPrefix\x7d\x7d_export_eval --on-event fish_prompt;
        \x7b\x7b.ExportCommand\x7d\x7d | source;

        if test \"$\x7b\x7b.HookPrefix\x7d\x7d_fish_mode\" != \"disable_arrow\";
            function __\x7b\x7b.HookPrefix\x7d\x7d_cd_hook --on-variable PWD;
                if test \"$\x7b\x7b.HookPrefix\x7d\x7d_fish_mode\" = \"eval_after_arrow\";
                    set -g __\x7b\x7b.HookPrefix\x7d\x7d_export_again 0;
                else;
                    \x7b\x7b.ExportCommand\x7d\x7d | source;
                end;
            end;
        end;
    end;

    function __\x7b\x7b.HookPrefix\x7d\x7d_export_eval_2 --on-event fish_preexec;
        if set -q __\x7b\x7b.HookPrefix\x7d\x7d_export_again;
            set -e __\x7b\x7b.HookPrefix\x7d\x7d_export_again;
            \x7b\x7b.ExportCommand\x7d\x7d | source;
            echo;
        end;

        functions --erase __\x7b\x7b.HookPrefix\x7d\x7d_cd_hook;
    end;
"

/-- `ZSH_HOOK` template from `env-hooks/src/shells/zsh.rs`. -/
def ZSH_HOOK : String := "
    _\x7b\x7b.HookPrefix\x7d\x7d_hook() \x7b
        vars=\"$(\x7b\x7b.ExportCommand\x7d\x7d)\"
        trap -- '' SIGINT
        eval \"$vars\"
        trap - SIGINT
    \x7d
    typeset -ag precmd_functions
    if (( ! $\x7bprecmd_functions[(I)_\x7b\x7b.HookPrefix\x7d\x7d_hook]\x7d )); then
        precmd_functions=(_\x7b\x7b.HookPrefix\x7d\x7d_hook $precmd_functions)
    fi
    typeset -ag chpwd_functions
    if (( ! $\x7bchpwd_functions[(I)_\x7b\x7b.HookPrefix\x7d\x7d_hook]\x7d )); then
        chpwd_functions=(_\x7b\x7b.HookPrefix\x7d\x7d_hook $chpwd_functions)
    fi
"

/-- The `\x7b\x7b.HookPrefix\x7d\x7d` placeholder. -/
def HOOK_NAME_PLACEHOLDER : String := "\x7b\x7b.HookPrefix\x7d\x7d"

/-- The `\x7b\x7b.ExportCommand\x7d\x7d` placeholder. -/
def EXPORT_COMMAND_PLACEHOLDER : String := "\x7b\x7b.ExportCommand\x7d\x7d"

/-- Template substitution shared by `shells::{bash,fish,zsh}::hook`: replace
the hook-prefix placeholder, then the export-command placeholder. -/
def hook_substitute (template : String) (hook_name export_command : String) : String :=
  String.mk (replace_all EXPORT_COMMAND_PLACEHOLDER.data export_command.data
    (replace_all HOOK_NAME_PLACEHOLDER.data hook_name.data template.data))

/-- `shells::bash::hook`. -/
def shells_bash_hook (hook_name export_command : String) : String :=
  hook_substitute BASH_HOOK hook_name export_command

/-- `shells::fish::hook`. -/
def shells_fish_hook (hook_name export_command : String) : String :=
  hook_substitute FISH_HOOK hook_name export_command

/-- `shells::zsh::hook`. -/
def shells_zsh_hook (hook_name export_command : String) : String :=
  hook_substitute ZSH_HOOK hook_name export_command

/-- `print_hook` from `cli/src/shell.rs`: for each shell, print its hook with
the CLI name and the current executable's export command substituted; JSON is
not a shell and yields an error. `quoted_current_exe` is the shell-quoted
current executable path (the `shell_quote` collaborator's output). -/
def print_hook (shell : EnvoluntaryShell) (quoted_current_exe : String) :
    Except String String :=
  match shell with
  | .bash => .ok (shells_bash_hook CLI_NAME (quoted_current_exe ++ " shell export bash"))
  | .fish => .ok (shells_fish_hook CLI_NAME (quoted_current_exe ++ " shell export fish"))
  | .json => .error "JSON isn't is a shell, so there's no hook to use."
  | .zsh => .ok (shells_zsh_hook CLI_NAME (quoted_current_exe ++ " shell export zsh"))

/-! ## Concrete collaborator instances used by the round-trip witness -/

instance : Encodable Char :=
  Encodable.ofLeftInjection Char.toNat (fun n => some (Char.ofNat n))
    (fun c => by simp only []; rw [Char.ofNat_toNat])

instance : Encodable String :=
  Encodable.ofLeftInjection String.data (fun l => some (String.mk l)) (fun _ => rfl)

instance : Encodable EnvoluntaryEnvState :=
  Encodable.ofLeftInjection (fun s => (s.flake_references, s.env_vars_reset))
    (fun p => some ⟨p.1, p.2⟩) (fun _ => rfl)

/-- A concrete injective serialiser of env-state records into byte lists,
used to instantiate the `serde_json` collaborator in the round-trip witness. -/
def witness_state_to_bytes (s : EnvoluntaryEnvState) : List Nat :=
  Nat.digits 256 (Encodable.encode s)

/-- Inverse of `witness_state_to_bytes`. -/
def witness_state_of_bytes (bytes : List Nat) : Option EnvoluntaryEnvState :=
  Encodable.decode (Nat.ofDigits 256 bytes)

/-! ## Concrete fixtures for witnesses -/

/-- Concrete filesystem for the freshness witness: the `.rc` file (mtime 10)
and the symlink exist, one watched file has mtime 20. -/
def witness_fs : FileSystem where
  isFile := fun p => p == "cache/profile.rc" || p == "cache/profile"
  mtime := fun p =>
    if p = "cache/profile.rc" then some 10
    else if p = "cache/watched" then some 20
    else none

/-- Concrete env-state record used by witnesses. -/
def witness_env_state : EnvoluntaryEnvState where
  flake_references := ["github:owner/repo"]
  env_vars_reset := [("FAKE_VAR", none), ("ENVOLUNTARY_ENV_STATE", none)]

/-- Concrete decode collaborator for state-machine witnesses: every blob
decodes to `witness_env_state`. -/
def witness_decode (_ : String) : Option EnvoluntaryEnvState :=
  some witness_env_state

/-- Concrete build collaborator for state-machine witnesses. -/
def witness_build (_ : List Config) : Option EnvVarsState :=
  some [("FAKE_VAR", some "true")]

/-- Concrete flake-archive JSON document for the GC-root witness, shaped like
the repository test's fixture but with genuine store paths. -/
def witness_doc : JsonValue :=
  JsonValue.obj
    [("path", JsonValue.str "/nix/store/abc-source".data),
      ("inputs", JsonValue.obj
        [("nixpkgs", JsonValue.obj
          [("inputs", JsonValue.obj []),
            ("path", JsonValue.str "/nix/store/def-source".data)])])]

/-! ## Helper lemmas about the index-map embedding -/

theorem indexGet_indexInsert {α : Type} (m : IndexList α) (k : String) (v : α) (k' : String) :
    indexGet (indexInsert m k v) k' = if k = k' then some v else indexGet m k' := by
  induction m with
  | nil => simp only [indexInsert, indexGet]
  | cons p m ih =>
    simp only [indexInsert]
    by_cases hp : p.1 = k
    · rw [if_pos hp]
      simp only [indexGet]
      by_cases h : k = k'
      · rw [if_pos h, if_pos h]
      · rw [if_neg h, if_neg h, if_neg (fun hh => h (hp ▸ hh))]
    · rw [if_neg hp]
      simp only [indexGet]
      by_cases h2 : p.1 = k'
      · rw [if_pos h2, if_pos h2, if_neg (fun hh => hp (h2.trans hh.symm))]
      · rw [if_neg h2, if_neg h2, ih]

theorem indexGet_eq_none_iff {α : Type} (m : IndexList α) (k : String) :
    indexGet m k = none ↔ k ∉ indexKeys m := by
  induction m with
  | nil => simp [indexGet, indexKeys]
  | cons p m ih =>
    simp only [indexGet, indexKeys, List.map_cons, List.mem_cons]
    by_cases h : p.1 = k
    · rw [if_pos h]
      simp [h]
    · rw [if_neg h, ih]
      have hne : ¬ k = p.1 := fun he => h he.symm
      simp [indexKeys, hne]

theorem indexGet_isSome_iff {α : Type} (m : IndexList α) (k : String) :
    (indexGet m k).isSome ↔ k ∈ indexKeys m := by
  rw [Option.isSome_iff_ne_none, ne_eq, indexGet_eq_none_iff, not_not]

theorem indexShiftRemoveGet_fst {α : Type} (m : IndexList α) (k : String) :
    (indexShiftRemoveGet m k).1 = indexGet m k := by
  induction m with
  | nil => simp [indexShiftRemoveGet, indexGet]
  | cons p m ih =>
    simp only [indexShiftRemoveGet, indexGet]
    by_cases h : p.1 = k
    · rw [if_pos h, if_pos h]
    · rw [if_neg h, if_neg h]
      exact ih

theorem indexGet_indexShiftRemoveGet_snd {α : Type} (m : IndexList α) (k k' : String)
    (h : k ≠ k') : indexGet (indexShiftRemoveGet m k).2 k' = indexGet m k' := by
  induction m with
  | nil => simp [indexShiftRemoveGet]
  | cons p m ih =>
    simp only [indexShiftRemoveGet]
    by_cases hp : p.1 = k
    · rw [if_pos hp]
      simp only [indexGet]
      rw [if_neg (fun hh => h (hp.symm.trans hh))]
    · rw [if_neg hp]
      simp only [indexGet]
      by_cases h2 : p.1 = k'
      · rw [if_pos h2, if_pos h2]
      · rw [if_neg h2, if_neg h2]
        exact ih

theorem indexGet_indexShiftRemove {α : Type} (m : IndexList α) (k k' : String)
    (h : k ≠ k') : indexGet (indexShiftRemove m k) k' = indexGet m k' := by
  induction m with
  | nil => simp [indexShiftRemove]
  | cons p m ih =>
    simp only [indexShiftRemove]
    by_cases hp : p.1 = k
    · rw [if_pos hp]
      simp only [indexGet]
      rw [if_neg (fun hh => h (hp.symm.trans hh))]
    · rw [if_neg hp]
      simp only [indexGet]
      by_cases h2 : p.1 = k'
      · rw [if_pos h2, if_pos h2]
      · rw [if_neg h2, if_neg h2]
        exact ih

theorem indexGet_indexShiftRemove_self {α : Type} (m : IndexList α) (k : String)
    (h : (indexKeys m).Nodup) : indexGet (indexShiftRemove m k) k = none := by
  induction m with
  | nil => simp [indexShiftRemove, indexGet]
  | cons p m ih =>
    simp only [indexKeys, List.map_cons, List.nodup_cons] at h
    simp only [indexShiftRemove]
    by_cases hp : p.1 = k
    · rw [if_pos hp, indexGet_eq_none_iff]
      exact hp ▸ h.1
    · rw [if_neg hp]
      simp only [indexGet]
      rw [if_neg hp]
      exact ih h.2

theorem indexGet_indexSetValue {α : Type} (m : IndexList α) (k : String) (v : α)
    (k' : String) (h : k ≠ k') : indexGet (indexSetValue m k v) k' = indexGet m k' := by
  induction m with
  | nil => simp [indexSetValue]
  | cons p m ih =>
    simp only [indexSetValue]
    by_cases hp : p.1 = k
    · rw [if_pos hp]
      simp only [indexGet]
      rw [if_neg h, if_neg (fun hh => h (hp.symm.trans hh))]
    · rw [if_neg hp]
      simp only [indexGet]
      by_cases h2 : p.1 = k'
      · rw [if_pos h2, if_pos h2]
      · rw [if_neg h2, if_neg h2]
        exact ih

theorem indexGet_indexSetValue_self {α : Type} (m : IndexList α) (k : String) (v : α)
    (hk : (indexGet m k).isSome) : indexGet (indexSetValue m k v) k = some v := by
  induction m with
  | nil => simp [indexGet] at hk
  | cons p m ih =>
    simp only [indexSetValue]
    by_cases hp : p.1 = k
    · rw [if_pos hp]
      simp [indexGet]
    · rw [if_neg hp]
      simp only [indexGet] at hk ⊢
      rw [if_neg hp] at hk
      rw [if_neg hp]
      exact ih hk

theorem indexKeys_indexSetValue {α : Type} (m : IndexList α) (k : String) (v : α) :
    indexKeys (indexSetValue m k v) = indexKeys m := by
  induction m with
  | nil => simp [indexSetValue]
  | cons p m ih =>
    simp only [indexSetValue]
    by_cases hp : p.1 = k
    · rw [if_pos hp]
      simp only [indexKeys, List.map_cons]
      rw [hp]
    · rw [if_neg hp]
      simp only [indexKeys, List.map_cons] at ih ⊢
      rw [ih]

/-! ## C7: the `nix print-dev-env` invocation of `update` -/

/-- C7 (code evidence): the `nix print-dev-env` argument list built by
`NixProfileCache::update` in the source, evaluated at the failing input
(cache subdirectory `/cache/sub`, pid 42, flake reference `path:/flake`),
contains neither `--no-write-lock-file` nor `--impure`, and differs from the
invocation prescribed by the specification and by the repository's own test
`nix-dev-env/tests/profile_caching.rs` in either evaluation mode. -/
theorem update_print_dev_env_args_missing_flags :
    update_print_dev_env_args "/cache/sub" 42 "path:/flake" =
      ["--extra-experimental-features", "nix-command flakes", "print-dev-env",
        "--profile", "/cache/sub/flake-tmp-profile.42", "path:/flake"] ∧
    "--no-write-lock-file" ∉ update_print_dev_env_args "/cache/sub" 42 "path:/flake" ∧
    "--impure" ∉ update_print_dev_env_args "/cache/sub" 42 "path:/flake" ∧
    update_print_dev_env_args "/cache/sub" 42 "path:/flake" ≠
      spec_update_print_dev_env_args true "/cache/sub" 42 "path:/flake" ∧
    update_print_dev_env_args "/cache/sub" 42 "path:/flake" ≠
      spec_update_print_dev_env_args false "/cache/sub" 42 "path:/flake" := by
  refine ⟨?_, ?_, ?_, ?_, ?_⟩ <;> decide

/-! ## C10: `print_hook` dispatch -/

/-- C10: requesting a hook for the `Json` shell variant returns an error and
produces no hook text, while for `Bash`, `Fish` and `Zsh` the call succeeds
and returns exactly that shell's hook template with the CLI name and the
current executable's export command substituted for the placeholders
(`print_hook` only prints in the `Ok` case, so an error means nothing is
emitted). -/
theorem print_hook_json_errors_other_shells_substitute (quoted_current_exe : String) :
    (print_hook EnvoluntaryShell.json quoted_current_exe).isOk = false ∧
    print_hook EnvoluntaryShell.bash quoted_current_exe =
      Except.ok (hook_substitute BASH_HOOK CLI_NAME
        (quoted_current_exe ++ " shell export bash")) ∧
    print_hook EnvoluntaryShell.fish quoted_current_exe =
      Except.ok (hook_substitute FISH_HOOK CLI_NAME
        (quoted_current_exe ++ " shell export fish")) ∧
    print_hook EnvoluntaryShell.zsh quoted_current_exe =
      Except.ok (hook_substitute ZSH_HOOK CLI_NAME
        (quoted_current_exe ++ " shell export zsh")) := by
  exact ⟨rfl, rfl, rfl, rfl⟩

/-! ## C6: `needs_update` freshness detection -/

/-- C6: `needs_update` returns `true` exactly when the `.rc` file or the
profile symlink is missing, or some watched file's modification time exceeds
the `.rc` file's; consequently, while both files exist and no watched file's
mtime exceeds the `.rc` mtime (as after a successful `update`), it returns
`false`. The hypothesis fixes the `.rc` metadata-read result. -/
theorem needs_update_iff (fs : FileSystem) (profile_rc_file profile_symlink : String)
    (files_to_watch : List String) (rc_mtime : Nat)
    (hm : fs.mtime profile_rc_file = some rc_mtime) :
    (needs_update fs profile_rc_file profile_symlink files_to_watch = some true ↔
      (fs.isFile profile_rc_file = false ∨ fs.isFile profile_symlink = false ∨
        ∃ f ∈ files_to_watch, ∃ t, fs.mtime f = some t ∧ rc_mtime < t)) ∧
    (fs.isFile profile_rc_file = true → fs.isFile profile_symlink = true →
      (∀ f ∈ files_to_watch, ∀ t, fs.mtime f = some t → t ≤ rc_mtime) →
      needs_update fs profile_rc_file profile_symlink files_to_watch = some false) := by
  constructor
  · cases h1 : fs.isFile profile_rc_file <;> cases h2 : fs.isFile profile_symlink <;>
      simp [needs_update, h1, h2, hm, List.any_eq_true]
    constructor
    · rintro ⟨f, hf, hlt⟩
      cases hmt : fs.mtime f with
      | none => simp [hmt] at hlt
      | some t =>
        rw [hmt] at hlt
        exact ⟨f, hf, t, hmt, hlt⟩
    · rintro ⟨f, hf, t, hmt, hlt⟩
      exact ⟨f, hf, by simp [hmt, hlt]⟩
  · intro h1 h2 hall
    simp only [needs_update, h1, h2, Bool.and_self, if_true, hm, Option.map_some']
    congr 1
    rw [List.any_eq_false]
    intro f hf
    cases hmt : fs.mtime f with
    | none => simp [hmt]
    | some t => simp [hmt, Nat.not_lt]; exact hall f hf t hmt

/-- C6 witness: at the concrete filesystem, a watched file newer than the
`.rc` makes `needs_update` return `true`. -/
theorem needs_update_iff_witness :
    needs_update witness_fs "cache/profile.rc" "cache/profile" ["cache/watched"] =
      some true :=
  (needs_update_iff witness_fs "cache/profile.rc" "cache/profile" ["cache/watched"] 10
    (by simp [witness_fs])).1.mpr
    (Or.inr (Or.inr ⟨"cache/watched", by simp, 20, by simp [witness_fs], by omega⟩))

/-! ## C4: `get_env_vars_reset` -/

theorem reset_fold_get_not_mem (keys : List String) (accS : EnvVarsState) (accO : EnvVars)
    (k : String) (hk : k ∉ keys) :
    indexGet (keys.foldl
      (fun (acc : EnvVarsState × EnvVars) key =>
        (indexInsert acc.1 key (indexShiftRemoveGet acc.2 key).1,
          (indexShiftRemoveGet acc.2 key).2)) (accS, accO)).1 k = indexGet accS k := by
  induction keys generalizing accS accO with
  | nil => rfl
  | cons a ks ih =>
    simp only [List.mem_cons, not_or] at hk
    simp only [List.foldl_cons]
    rw [ih _ _ hk.2, indexGet_indexInsert, if_neg (fun hh => hk.1 hh.symm)]

theorem reset_fold_get_mem (keys : List String) (accS : EnvVarsState) (accO : EnvVars)
    (k : String) (hnd : keys.Nodup) (hk : k ∈ keys) :
    indexGet (keys.foldl
      (fun (acc : EnvVarsState × EnvVars) key =>
        (indexInsert acc.1 key (indexShiftRemoveGet acc.2 key).1,
          (indexShiftRemoveGet acc.2 key).2)) (accS, accO)).1 k = some (indexGet accO k) := by
  induction keys generalizing accS accO with
  | nil => simp at hk
  | cons a ks ih =>
    rw [List.nodup_cons] at hnd
    simp only [List.foldl_cons]
    by_cases ha : k = a
    · subst ha
      rw [reset_fold_get_not_mem _ _ _ _ hnd.1, indexGet_indexInsert, if_pos rfl,
        indexShiftRemoveGet_fst]
    · have hks : k ∈ ks := by
        rcases List.mem_cons.mp hk with h | h
        · exact absurd h ha
        · exact h
      rw [ih _ _ hnd.2 hks, indexGet_indexShiftRemoveGet_snd _ _ _ (fun hh => ha hh.symm)]

theorem get_env_vars_reset_get_state_key (old : EnvVars) (new_keys : List String)
    (state_key : String) :
    indexGet (get_env_vars_reset old new_keys state_key) state_key = some none := by
  simp only [get_env_vars_reset]
  rw [indexGet_indexInsert, if_pos rfl]

theorem get_env_vars_reset_get_mem (old : EnvVars) (new_keys : List String)
    (state_key : String) (k : String) (hnd : new_keys.Nodup) (hk : k ∈ new_keys)
    (hne : k ≠ state_key) :
    indexGet (get_env_vars_reset old new_keys state_key) k = some (indexGet old k) := by
  simp only [get_env_vars_reset]
  rw [indexGet_indexInsert, if_neg (fun hh => hne hh.symm),
    reset_fold_get_mem _ _ _ _ hnd hk]

theorem get_env_vars_reset_get_not_mem (old : EnvVars) (new_keys : List String)
    (state_key : String) (k : String) (hk : k ∉ new_keys) (hne : k ≠ state_key) :
    indexGet (get_env_vars_reset old new_keys state_key) k = none := by
  simp only [get_env_vars_reset]
  rw [indexGet_indexInsert, if_neg (fun hh => hne hh.symm), reset_fold_get_not_mem _ _ _ _ hk]
  rfl

/-- C4: for every old-values map, duplicate-free set of new keys and state
key, `get_env_vars_reset` returns a state whose key set is exactly the new
keys plus the state key; every new key other than the state key records the
old map's value for it (`none` when absent there), and the state key records
absent (the final insertion overrides, so that the reset script also clears
the state variable itself). -/
theorem get_env_vars_reset_spec (old : EnvVars) (new_keys : List String)
    (state_key : String) (hnd : new_keys.Nodup) :
    (∀ k, k ∈ indexKeys (get_env_vars_reset old new_keys state_key) ↔
      (k ∈ new_keys ∨ k = state_key)) ∧
    (∀ k, k ∈ new_keys → k ≠ state_key →
      indexGet (get_env_vars_reset old new_keys state_key) k = some (indexGet old k)) ∧
    indexGet (get_env_vars_reset old new_keys state_key) state_key = some none := by
  refine ⟨?_, fun k hk hne => get_env_vars_reset_get_mem old new_keys state_key k hnd hk hne,
    get_env_vars_reset_get_state_key old new_keys state_key⟩
  intro k
  rw [← indexGet_isSome_iff]
  by_cases hks : k = state_key
  · subst hks
    rw [get_env_vars_reset_get_state_key]
    simp
  · by_cases hkm : k ∈ new_keys
    · rw [get_env_vars_reset_get_mem old new_keys state_key k hnd hkm hks]
      simp [hkm]
    · rw [get_env_vars_reset_get_not_mem old new_keys state_key k hkm hks]
      simp [hkm, hks]

/-- C4 witness: concrete evaluation — key `A` was updated (old value kept),
key `B` is new (absent recorded), the state key records absent. -/
theorem get_env_vars_reset_spec_witness :
    "A" ∈ indexKeys (get_env_vars_reset [("A", "1")] ["A", "B"] "SK") ∧
    indexGet (get_env_vars_reset [("A", "1")] ["A", "B"] "SK") "A" =
      some (indexGet [("A", "1")] "A") ∧
    indexGet (get_env_vars_reset [("A", "1")] ["A", "B"] "SK") "SK" = some none := by
  have h := get_env_vars_reset_spec [("A", "1")] ["A", "B"] "SK" (by decide)
  exact ⟨(h.1 "A").mpr (Or.inl (by decide)), h.2.1 "A" (by decide) (by decide), h.2.2⟩

/-! ## C2 and C5: the export state machine -/

/-- C2: `print_export` is a total function, so every input reaches exactly one
terminal outcome; the four `{NoRcs, Rcs} × {no state variable, state
variable}` combinations resolve as follows (collaborator successes as
hypotheses, matching the source's failure rule), and in the `Rcs` ×
state-variable case with equal flake-reference lists the run is `done` with
no output at all. -/
theorem print_export_state_machine (decode : String → Option EnvoluntaryEnvState)
    (build : List Config → Option EnvVarsState) (rcs : List Config) (v : String) :
    (print_export decode build [] none = ([], ExportOutcome.done)) ∧
    (∀ env_state, decode v = some env_state →
      print_export decode build [] (some v) =
        ([env_state.env_vars_reset], ExportOutcome.done)) ∧
    (decode v = none →
      print_export decode build [] (some v) = ([], ExportOutcome.failed)) ∧
    (∀ env_vars_state, rcs ≠ [] → build rcs = some env_vars_state →
      print_export decode build rcs none = ([env_vars_state], ExportOutcome.done)) ∧
    (∀ env_state, rcs ≠ [] → decode v = some env_state →
      rcs.map (fun config => config.flake_reference) = env_state.flake_references →
      print_export decode build rcs (some v) = ([], ExportOutcome.done)) := by
  refine ⟨rfl, ?_, ?_, ?_, ?_⟩
  · intro env_state h
    simp [print_export, h]
  · intro h
    simp [print_export, h]
  · intro env_vars_state hne hb
    cases rcs with
    | nil => exact absurd rfl hne
    | cons c cs => simp [print_export, hb]
  · intro env_state hne hd heq
    cases rcs with
    | nil => exact absurd rfl hne
    | cons c cs => simp [print_export, hd, heq]

/-- C2 witness: the `Rcs` × state-variable combination with equal flake lists
terminates `done` without emitting anything. -/
theorem print_export_state_machine_witness :
    print_export witness_decode witness_build [Config.mk "github:owner/repo" none]
      (some "blob") = ([], ExportOutcome.done) :=
  (print_export_state_machine witness_decode witness_build
      [Config.mk "github:owner/repo" none] "blob").2.2.2.2
    witness_env_state (by simp) rfl rfl

/-- C5: in the `Rcs` × state-variable case with differing flake lists, the run
emits exactly the decoded blob's reset state followed by the newly built
exports, in that order; flattened into script lines, every reset line
precedes every new-export line. -/
theorem print_export_resets_precede_new_exports
    (decode : String → Option EnvoluntaryEnvState)
    (build : List Config → Option EnvVarsState) (rcs : List Config) (v : String)
    (env_state : EnvoluntaryEnvState) (env_vars_state : EnvVarsState)
    (hne : rcs ≠ []) (hd : decode v = some env_state)
    (hneq : rcs.map (fun config => config.flake_reference) ≠ env_state.flake_references)
    (hb : build rcs = some env_vars_state) :
    print_export decode build rcs (some v) =
      ([env_state.env_vars_reset, env_vars_state], ExportOutcome.done) ∧
    emitted_lines (print_export decode build rcs (some v)).1 =
      env_state.env_vars_reset ++ env_vars_state := by
  have h1 : print_export decode build rcs (some v) =
      ([env_state.env_vars_reset, env_vars_state], ExportOutcome.done) := by
    cases rcs with
    | nil => exact absurd rfl hne
    | cons c cs =>
      simp only [print_export, hd, hb]
      rw [if_neg hneq]
  refine ⟨h1, ?_⟩
  rw [h1]
  simp [emitted_lines]

/-- C5 witness: with differing flake lists, the concrete run prints the reset
block first and the new exports second. -/
theorem print_export_resets_precede_new_exports_witness :
    print_export witness_decode witness_build [Config.mk "github:other/repo" none]
      (some "blob") =
      ([witness_env_state.env_vars_reset, [("FAKE_VAR", some "true")]],
        ExportOutcome.done) :=
  (print_export_resets_precede_new_exports witness_decode witness_build
      [Config.mk "github:other/repo" none] "blob"
      witness_env_state [("FAKE_VAR", some "true")] (by simp) rfl (by decide) rfl).1

/-! ## C3: delimited merging -/

theorem foldl_indexSetInsert (l : List (List Char)) :
    ∀ acc, l.foldl indexSetInsert acc = acc ++ dedupFirst (l.filter (· ∉ acc)) := by
  induction l with
  | nil => intro acc; simp [dedupFirst]
  | cons a t ih =>
    intro acc
    simp only [List.foldl_cons, indexSetInsert]
    by_cases h : a ∈ acc
    · rw [if_pos h, ih]
      have hf : (a :: t).filter (· ∉ acc) = t.filter (· ∉ acc) := by
        simp [List.filter_cons, h]
      rw [hf]
    · rw [if_neg h, ih]
      have hf : (a :: t).filter (· ∉ acc) = a :: t.filter (· ∉ acc) := by
        simp [List.filter_cons, h]
      have hf2 : t.filter (· ∉ acc ++ [a]) = (t.filter (· ∉ acc)).filter (· ≠ a) := by
        rw [List.filter_filter]
        apply List.filter_congr
        intro x _
        by_cases h1 : x ∈ acc <;> by_cases h2 : x = a <;> simp [h1, h2]
      rw [hf, dedupFirst, hf2, List.append_assoc, List.singleton_append]

theorem indexSetCollect_eq_dedupFirst (l : List (List Char)) :
    indexSetCollect l = dedupFirst l := by
  rw [indexSetCollect, foldl_indexSetInsert]
  simp

theorem mem_dedupFirst (x : List Char) (l : List (List Char)) :
    x ∈ dedupFirst l ↔ x ∈ l := by
  induction l using dedupFirst.induct with
  | case1 => simp [dedupFirst]
  | case2 a t ih =>
    rw [dedupFirst]
    simp only [List.mem_cons, ih, List.mem_filter]
    by_cases h : x = a <;> simp [h]

theorem dedupFirst_nodup (l : List (List Char)) : (dedupFirst l).Nodup := by
  induction l using dedupFirst.induct with
  | case1 => simp [dedupFirst]
  | case2 a t ih =>
    rw [dedupFirst]
    refine List.nodup_cons.mpr ⟨?_, ih⟩
    intro hmem
    have h2 := (mem_dedupFirst a _).mp hmem
    simp [List.mem_filter] at h2

theorem dedupFirst_append (l₁ : List (List Char)) :
    ∀ l₂, dedupFirst (l₁ ++ l₂) = dedupFirst l₁ ++ dedupFirst (l₂.filter (· ∉ l₁)) := by
  induction l₁ using dedupFirst.induct with
  | case1 => intro l₂; simp [dedupFirst]
  | case2 a t ih =>
    intro l₂
    have hf : (l₂.filter (· ≠ a)).filter (· ∉ t.filter (· ≠ a)) =
        l₂.filter (· ∉ a :: t) := by
      rw [List.filter_filter]
      apply List.filter_congr
      intro x _
      by_cases h1 : x ∈ t <;> by_cases h2 : x = a <;> simp [h1, h2, List.mem_filter]
    rw [List.cons_append, dedupFirst, List.filter_append, ih, dedupFirst, hf,
      List.cons_append]

/-- C3: the merged value joins the deduplicated-in-order concatenation of the
new value's split segments before the old value's split segments (first
occurrence kept); the deduplicated segment list has no duplicates, retains
every new segment, and places every new segment before every segment that
occurs only in the old value; and `merge_delimited_env_var` rewrites the new
map's entry this way exactly when the variable is present in both maps. -/
theorem merge_delimited_spec (split_delimiter join_delimiter : Char)
    (old_value new_value : String) :
    (merge_delimited_values split_delimiter join_delimiter old_value new_value =
      String.mk (List.intercalate [join_delimiter]
        (dedupFirst (new_value.data.splitOn split_delimiter ++
          old_value.data.splitOn split_delimiter)))) ∧
    (dedupFirst (new_value.data.splitOn split_delimiter ++
      old_value.data.splitOn split_delimiter)).Nodup ∧
    (∃ tail,
      dedupFirst (new_value.data.splitOn split_delimiter ++
          old_value.data.splitOn split_delimiter) =
        dedupFirst (new_value.data.splitOn split_delimiter) ++ tail ∧
      ∀ y ∈ tail, y ∉ new_value.data.splitOn split_delimiter) ∧
    (∀ x ∈ new_value.data.splitOn split_delimiter,
      x ∈ dedupFirst (new_value.data.splitOn split_delimiter ++
        old_value.data.splitOn split_delimiter)) ∧
    (∀ (env_var : String) (old_env_vars new_env_vars : EnvVars) (ov nv : String),
      indexGet old_env_vars env_var = some ov → indexGet new_env_vars env_var = some nv →
      merge_delimited_env_var env_var split_delimiter join_delimiter old_env_vars
          new_env_vars =
        indexSetValue new_env_vars env_var
          (merge_delimited_values split_delimiter join_delimiter ov nv)) ∧
    (∀ (env_var : String) (old_env_vars new_env_vars : EnvVars),
      indexGet old_env_vars env_var = none ∨ indexGet new_env_vars env_var = none →
      merge_delimited_env_var env_var split_delimiter join_delimiter old_env_vars
        new_env_vars = new_env_vars) := by
  refine ⟨?_, dedupFirst_nodup _, ?_, ?_, ?_, ?_⟩
  · rw [merge_delimited_values, indexSetCollect_eq_dedupFirst]
  · refine ⟨dedupFirst ((old_value.data.splitOn split_delimiter).filter
      (· ∉ new_value.data.splitOn split_delimiter)), dedupFirst_append _ _, ?_⟩
    intro y hy
    have := (mem_dedupFirst y _).mp hy
    rw [List.mem_filter] at this
    simpa using this.2
  · intro x hx
    rw [mem_dedupFirst, List.mem_append]
    exact Or.inl hx
  · intro env_var old_env_vars new_env_vars ov nv h1 h2
    rw [merge_delimited_env_var, h1, h2]
  · intro env_var old_env_vars new_env_vars h
    rcases h with h | h
    · rw [merge_delimited_env_var, h]
    · rw [merge_delimited_env_var, h]
      cases indexGet old_env_vars env_var <;> rfl

/-- C3 witness: concrete merge — new `a:b` before old `b:c` merges to `a:b:c`,
and `merge_delimited_env_var` rewrites the entry when present in both maps. -/
theorem merge_delimited_spec_witness :
    (merge_delimited_values ':' ':' "b:c" "a:b" =
      String.mk (List.intercalate [':']
        (dedupFirst ("a:b".data.splitOn ':' ++ "b:c".data.splitOn ':')))) ∧
    (merge_delimited_env_var "PATH" ':' ':' [("PATH", "b:c")] [("PATH", "a:b")] =
      indexSetValue [("PATH", "a:b")] "PATH" (merge_delimited_values ':' ':' "b:c" "a:b")) :=
  ⟨(merge_delimited_spec ':' ':' "b:c" "a:b").1,
    (merge_delimited_spec ':' ':' "b:c" "a:b").2.2.2.2.1 "PATH"
      [("PATH", "b:c")] [("PATH", "a:b")] "b:c" "a:b" (by decide) (by decide)⟩

/-! ## C8: GC-root symlink names for flake inputs -/

theorem sizeOf_inputs_lt {doc : JsonValue} {inputs : List (String × JsonValue)}
    (h : json_get doc "inputs" = some (JsonValue.obj inputs)) :
    sizeOf inputs < sizeOf doc := by
  cases doc with
  | str s => simp [json_get] at h
  | other => simp [json_get] at h
  | obj fields =>
    simp only [json_get, Option.map_eq_some'] at h
    obtain ⟨p, hfind, hp2⟩ := h
    have h1 : sizeOf p < sizeOf fields :=
      List.sizeOf_lt_of_mem (List.mem_of_find?_eq_some hfind)
    rcases p with ⟨pk, pv⟩
    simp only at hp2
    subst hp2
    simp only [Prod.mk.sizeOf_spec, JsonValue.obj.sizeOf_spec] at *
    omega

theorem get_path_eq_map_strip (doc : JsonValue) :
    get_path doc = (get_raw_path doc).map strip_store_path := rfl

theorem get_paths_from_doc_eq_map_strip (doc : JsonValue) :
    get_paths_from_doc doc = (raw_paths_from_doc doc).map strip_store_path := by
  have key : ∀ n : Nat,
      (∀ doc : JsonValue, sizeOf doc ≤ n →
        get_paths_from_doc doc = (raw_paths_from_doc doc).map strip_store_path) ∧
      (∀ l : List (String × JsonValue), sizeOf l ≤ n →
        get_paths_from_inputs l = (raw_paths_from_inputs l).map strip_store_path) := by
    intro n
    induction n with
    | zero =>
      constructor
      · intro doc hle
        cases doc <;> simp at hle
      · intro l hle
        cases l with
        | nil => simp [get_paths_from_inputs, raw_paths_from_inputs]
        | cons kv rest => simp at hle
    | succ n ih =>
      constructor
      · intro doc hle
        rw [get_paths_from_doc, raw_paths_from_doc, List.map_append]
        have hA : (get_path doc).toList = (get_raw_path doc).toList.map strip_store_path := by
          rw [get_path_eq_map_strip]
          cases get_raw_path doc <;> simp
        rw [hA]
        congr 1
        split
        · rename_i inputs heq
          exact ih.2 inputs (Nat.le_of_lt_succ (Nat.lt_of_lt_of_le
            (sizeOf_inputs_lt heq) hle))
        · simp
      · intro l hle
        cases l with
        | nil => simp [get_paths_from_inputs, raw_paths_from_inputs]
        | cons kv rest =>
          rcases kv with ⟨k1, v1⟩
          simp only [Prod.mk.sizeOf_spec, List.cons.sizeOf_spec] at hle
          rw [get_paths_from_inputs, raw_paths_from_inputs, List.map_append]
          rw [ih.1 v1 (by omega), ih.2 rest (by omega)]
  exact (key (sizeOf doc)).1 doc (Nat.le_refl _)

/-- C8: when every `path` reported by the flake-archive JSON tree is a store
path `/nix/store/<name>` with non-empty `<name>` (the 11-character store
prefix followed by the entry name), the collected input names are exactly the
reported paths with their first 11 characters removed, removing precisely the
`/nix/store/` prefix, and each GC-root symlink is that name joined under the
`flake-inputs` directory. -/
theorem flake_input_gc_root_names (flake_inputs_dir : List Char) (doc : JsonValue)
    (h : ∀ p ∈ raw_paths_from_doc doc,
      ∃ tail, tail ≠ [] ∧ p = "/nix/store/".data ++ tail) :
    (get_paths_from_doc doc = (raw_paths_from_doc doc).map (fun p => p.drop 11)) ∧
    (∀ p ∈ raw_paths_from_doc doc, "/nix/store/".data ++ p.drop 11 = p) ∧
    (∀ input ∈ get_paths_from_doc doc,
      flake_input_symlink_path flake_inputs_dir input = flake_inputs_dir ++ '/' :: input) := by
  have hlen : ("/nix/store/".data).length = 11 := by decide
  have hdrop : ∀ p ∈ raw_paths_from_doc doc, p.drop 11 ≠ [] ∧
      "/nix/store/".data ++ p.drop 11 = p := by
    intro p hp
    obtain ⟨tail, htne, hpe⟩ := h p hp
    subst hpe
    rw [← hlen, List.drop_left]
    exact ⟨htne, rfl⟩
  refine ⟨?_, fun p hp => (hdrop p hp).2, fun input _ => rfl⟩
  rw [get_paths_from_doc_eq_map_strip]
  apply List.map_congr_left
  intro p hp
  obtain ⟨tail, htne, hpe⟩ := h p hp
  rw [strip_store_path, if_pos]
  rw [hpe, List.length_append, hlen]
  have : 0 < tail.length := List.length_pos.mpr htne
  omega

/-- C8 witness: on the concrete archive document, dropping eleven characters
from a reported path removes exactly the `/nix/store/` prefix. -/
theorem flake_input_gc_root_names_witness :
    "/nix/store/".data ++ ("/nix/store/abc-source".data.drop 11) =
      "/nix/store/abc-source".data := by
  have hraw : raw_paths_from_doc witness_doc =
      ["/nix/store/abc-source".data, "/nix/store/def-source".data] := by
    simp [witness_doc, raw_paths_from_doc, raw_paths_from_inputs, json_get,
      get_raw_path, json_as_str, List.find?]
  have h := flake_input_gc_root_names "flake-inputs".data witness_doc (by
    rw [hraw]
    intro p hp
    simp only [List.mem_cons, List.not_mem_nil, or_false] at hp
    rcases hp with hp | hp <;> subst hp
    · exact ⟨"abc-source".data, by simp, by decide⟩
    · exact ⟨"def-source".data, by simp, by decide⟩)
  exact h.2.1 "/nix/store/abc-source".data (by rw [hraw]; simp)

/-! ## C9: `PATH` frame condition of `get_new_env_vars` -/

theorem indexGet_remove_ignored (m : EnvVars) (k : String)
    (h : ignored_env_var_key k = false) :
    indexGet (remove_ignored_env_vars m) k = indexGet m k := by
  induction m with
  | nil => rfl
  | cons p m ih =>
    simp only [remove_ignored_env_vars, List.filter_cons] at ih ⊢
    by_cases hi : ignored_env_var_key p.1 = true
    · simp only [hi, Bool.not_true, Bool.false_eq_true, if_false]
      have hp : p.1 ≠ k := fun he => by
        rw [he, h] at hi
        exact Bool.false_ne_true hi
      rw [ih]
      simp only [indexGet]
      rw [if_neg hp]
    · simp only [Bool.not_eq_true] at hi
      simp only [hi, Bool.not_false, if_true]
      simp only [indexGet]
      by_cases hp : p.1 = k
      · rw [if_pos hp, if_pos hp]
      · rw [if_neg hp, if_neg hp]
        exact ih

theorem indexKeys_remove_ignored_nodup (m : EnvVars)
    (h : (indexKeys m).Nodup) : (indexKeys (remove_ignored_env_vars m)).Nodup := by
  have hs : List.Sublist (remove_ignored_env_vars m) m := List.filter_sublist m
  simp only [indexKeys] at h ⊢
  exact List.Nodup.sublist (List.Sublist.map (fun p => p.1) hs) h

theorem indexGet_merge_delimited_env_var_ne (env_var : String)
    (split_delimiter join_delimiter : Char) (old_env_vars new_env_vars : EnvVars)
    (k : String) (h : env_var ≠ k) :
    indexGet (merge_delimited_env_var env_var split_delimiter join_delimiter
      old_env_vars new_env_vars) k = indexGet new_env_vars k := by
  rw [merge_delimited_env_var]
  cases h1 : indexGet old_env_vars env_var
  · rfl
  · cases h2 : indexGet new_env_vars env_var
    · rfl
    · exact indexGet_indexSetValue new_env_vars env_var _ k h

theorem indexKeys_env_vars_state_from (m : EnvVars) :
    indexKeys (env_vars_state_from_env_vars m) = indexKeys m := by
  simp [env_vars_state_from_env_vars, indexKeys, List.map_map, Function.comp]

/-- C9: when the `PATH` value harvested from sourcing the profile `.rc` equals
the calling process's current `PATH` (both present with the same value, and
the harvested map has unique keys as an `IndexMap` does), `get_new_env_vars`
removes `PATH` from the new environment before diffing and merging: the new
map has no `PATH` entry, the derived reset state has no `PATH` entry, and the
full exported `EnvVarsState` contains no `PATH` key. -/
theorem get_new_env_vars_path_untouched (process_env harvested_env_vars : EnvVars)
    (p : String) (hnodup : (indexKeys harvested_env_vars).Nodup)
    (hproc : indexGet process_env ENV_VAR_KEY_PATH = some p)
    (hharv : indexGet harvested_env_vars ENV_VAR_KEY_PATH = some p)
    (encode_state : EnvoluntaryEnvState → String) (flake_reference : String) :
    indexGet (get_new_env_vars process_env harvested_env_vars).1 ENV_VAR_KEY_PATH =
      none ∧
    indexGet (get_env_vars_reset (get_new_env_vars process_env harvested_env_vars).2
      (indexKeys (get_new_env_vars process_env harvested_env_vars).1)
      ENVOLUNTARY_ENV_STATE_VAR_KEY) ENV_VAR_KEY_PATH = none ∧
    ENV_VAR_KEY_PATH ∉ indexKeys
      (get_export_env_vars_state encode_state process_env harvested_env_vars
        flake_reference) := by
  have hig : ignored_env_var_key ENV_VAR_KEY_PATH = false := by decide
  have e1 : indexGet (remove_ignored_env_vars harvested_env_vars) ENV_VAR_KEY_PATH =
      indexGet process_env ENV_VAR_KEY_PATH := by
    rw [indexGet_remove_ignored _ _ hig, hharv, hproc]
  have hn1 : (indexKeys (remove_ignored_env_vars harvested_env_vars)).Nodup :=
    indexKeys_remove_ignored_nodup _ hnodup
  have e2 : indexGet (indexShiftRemove (remove_ignored_env_vars harvested_env_vars)
      ENV_VAR_KEY_PATH) ENV_VAR_KEY_PATH = none :=
    indexGet_indexShiftRemove_self _ _ hn1
  have e3 : indexContains (indexShiftRemove (remove_ignored_env_vars harvested_env_vars)
      ENV_VAR_KEY_PATH) ENV_VAR_KEY_PATH = false := by
    rw [indexContains, e2]
    rfl
  have hpath : indexGet (get_new_env_vars process_env harvested_env_vars).1
      ENV_VAR_KEY_PATH = none := by
    simp only [get_new_env_vars]
    rw [if_pos e1]
    simp only [e3, Bool.false_eq_true, if_false]
    by_cases hx : indexContains (indexShiftRemove
        (remove_ignored_env_vars harvested_env_vars) ENV_VAR_KEY_PATH)
        ENV_VAR_KEY_XDG_DATA_DIRS = true
    · rw [if_pos hx, indexGet_merge_delimited_env_var_ne _ _ _ _ _ _ (by decide)]
      exact e2
    · rw [if_neg hx]
      exact e2
  refine ⟨hpath, ?_, ?_⟩
  · exact get_env_vars_reset_get_not_mem _ _ _ _
      ((indexGet_eq_none_iff _ _).mp hpath) (by decide)
  · simp only [get_export_env_vars_state]
    rw [indexKeys_env_vars_state_from, ← indexGet_isSome_iff, indexGet_indexInsert,
      if_neg (by decide), hpath]
    simp

/-- C9 witness: at a concrete process environment and a harvested environment
whose `PATH` agrees with it, neither the new map, nor the reset, nor the
exported state mention `PATH`. -/
theorem get_new_env_vars_path_untouched_witness :
    indexGet (get_new_env_vars [("PATH", "/bin"), ("HOME", "/root")]
      [("PATH", "/bin"), ("FAKE_VAR", "true")]).1 ENV_VAR_KEY_PATH = none ∧
    ENV_VAR_KEY_PATH ∉ indexKeys
      (get_export_env_vars_state (fun _ => "blob") [("PATH", "/bin"), ("HOME", "/root")]
        [("PATH", "/bin"), ("FAKE_VAR", "true")] "github:owner/repo") := by
  have h := get_new_env_vars_path_untouched [("PATH", "/bin"), ("HOME", "/root")]
    [("PATH", "/bin"), ("FAKE_VAR", "true")] "/bin" (by decide) (by decide) (by decide)
    (fun _ => "blob") "github:owner/repo"
  exact ⟨h.1, h.2.2⟩

/-! ## C1: round-trip of the env-state blob -/

theorem b64_decode_char_b64_char (n : Nat) (h : n < 64) :
    b64_decode_char (b64_char n) = some n := by
  have key : ∀ i : Fin 64, b64_decode_char (b64_char i.val) = some i.val := by decide
  exact key ⟨n, h⟩

theorem b64_char_ne_pad (n : Nat) (h : n < 64) : b64_char n ≠ '=' := by
  have key : ∀ i : Fin 64, b64_char i.val ≠ '=' := by decide
  exact key ⟨n, h⟩

theorem b64_decode_encode (bytes : List Nat) (h : ∀ b ∈ bytes, b < 256) :
    b64_decode (b64_encode bytes) = some bytes := by
  induction bytes using b64_encode.induct with
  | case1 => rfl
  | case2 b0 =>
    have h0 : b0 < 256 := h b0 (by simp)
    have d0 := b64_decode_char_b64_char (b0 / 4) (by omega)
    have d1 := b64_decode_char_b64_char (b0 % 4 * 16) (by omega)
    have e0 : b0 % 4 * 16 % 16 = 0 := by omega
    have e1 : b0 / 4 * 4 + b0 % 4 * 16 / 16 = b0 := by omega
    simp [b64_encode, b64_decode, d0, d1, e0, e1]
    omega
  | case3 b0 b1 =>
    have h0 : b0 < 256 := h b0 (by simp)
    have h1 : b1 < 256 := h b1 (by simp)
    have d0 := b64_decode_char_b64_char (b0 / 4) (by omega)
    have d1 := b64_decode_char_b64_char (b0 % 4 * 16 + b1 / 16) (by omega)
    have d2 := b64_decode_char_b64_char (b1 % 16 * 4) (by omega)
    have hne := b64_char_ne_pad (b1 % 16 * 4) (by omega)
    have e0 : b1 % 16 * 4 % 4 = 0 := by omega
    have e1 : b0 / 4 * 4 + (b0 % 4 * 16 + b1 / 16) / 16 = b0 := by omega
    have e2 : (b0 % 4 * 16 + b1 / 16) % 16 * 16 + b1 % 16 * 4 / 4 = b1 := by omega
    simp [b64_encode, b64_decode, d0, d1, d2, hne, e0, e1, e2]
    omega
  | case4 b0 b1 b2 rest ih =>
    have h0 : b0 < 256 := h b0 (by simp)
    have h1 : b1 < 256 := h b1 (by simp)
    have h2 : b2 < 256 := h b2 (by simp)
    have hrest : ∀ b ∈ rest, b < 256 := fun b hb => h b (by simp [hb])
    have d0 := b64_decode_char_b64_char (b0 / 4) (by omega)
    have d1 := b64_decode_char_b64_char (b0 % 4 * 16 + b1 / 16) (by omega)
    have d2 := b64_decode_char_b64_char (b1 % 16 * 4 + b2 / 64) (by omega)
    have d3 := b64_decode_char_b64_char (b2 % 64) (by omega)
    have hne2 := b64_char_ne_pad (b1 % 16 * 4 + b2 / 64) (by omega)
    have hne3 := b64_char_ne_pad (b2 % 64) (by omega)
    have e0 : b0 / 4 * 4 + (b0 % 4 * 16 + b1 / 16) / 16 = b0 := by omega
    have e1 : (b0 % 4 * 16 + b1 / 16) % 16 * 16 + (b1 % 16 * 4 + b2 / 64) / 4 = b1 := by
      omega
    have e2 : (b1 % 16 * 4 + b2 / 64) % 4 * 64 + b2 % 64 = b2 := by omega
    simp [b64_encode, b64_decode, d0, d1, d2, d3, hne2, hne3, ih hrest, e0, e1, e2]

/-- C1: for every env-state record, decoding the encoding — base64 of
zstd-compression of the JSON bytes — returns the original record (entry order
included, since records compare as ordered lists), and decoding a malformed
input (here `"!"`, which is not base64) fails. The `serde_json` and `ruzstd`
collaborators enter as parameters constrained exactly by their documented
contracts: serialisation inverts to the same record and produces bytes, and
decompression inverts compression; the base64 layer is concrete. -/
theorem env_state_encode_decode_roundtrip
    (json_to_vec : EnvoluntaryEnvState → List Nat)
    (json_from_slice : List Nat → Option EnvoluntaryEnvState)
    (zstd_compress : List Nat → List Nat)
    (zstd_decompress : List Nat → Option (List Nat))
    (hjson : ∀ s, json_from_slice (json_to_vec s) = some s)
    (hjson_bytes : ∀ s, ∀ b ∈ json_to_vec s, b < 256)
    (hzstd : ∀ bytes, (∀ b ∈ bytes, b < 256) →
      zstd_decompress (zstd_compress bytes) = some bytes)
    (hzstd_bytes : ∀ bytes, (∀ b ∈ bytes, b < 256) →
      ∀ b ∈ zstd_compress bytes, b < 256) :
    (∀ s, EnvoluntaryEnvState.decode json_from_slice zstd_decompress
      (EnvoluntaryEnvState.encode json_to_vec zstd_compress s) = some s) ∧
    EnvoluntaryEnvState.decode json_from_slice zstd_decompress ['!'] = none := by
  constructor
  · intro s
    rw [EnvoluntaryEnvState.encode, EnvoluntaryEnvState.decode,
      b64_decode_encode _ (hzstd_bytes _ (hjson_bytes s))]
    simp only [Option.some_bind]
    rw [hzstd _ (hjson_bytes s)]
    simp only [Option.some_bind]
    exact hjson s
  · rfl

/-- C1 witness: with the identity compressor and a concrete injective
serialiser, the concrete record round-trips through encode/decode. -/
theorem env_state_encode_decode_roundtrip_witness :
    EnvoluntaryEnvState.decode witness_state_of_bytes some
      (EnvoluntaryEnvState.encode witness_state_to_bytes id witness_env_state) =
      some witness_env_state :=
  (env_state_encode_decode_roundtrip witness_state_to_bytes witness_state_of_bytes id some
    (fun s => by
      rw [witness_state_of_bytes, witness_state_to_bytes, Nat.ofDigits_digits,
        Encodable.encodek])
    (fun s b hb => Nat.digits_lt_base (by norm_num) hb)
    (fun bytes _ => rfl)
    (fun bytes hb => hb)).1 witness_env_state

end Envoluntary
